import Mathlib

set_option maxHeartbeats 1000000

/-!
Shallow embedding of the `numconverter` CLI (src/main.rs) and verification of
its specification claims.  Machine integers (`u128`, `u32`, `u8`) are embedded
as `Nat` with explicit bounds where overflow or range checks matter; fallible
Rust code returns `Except`, and a Rust panic is modelled as `none` in an
`Option`-wrapped result.
-/

deriving instance DecidableEq for Except

/-- Error codes of the CLI (`enum ErrorCode`, src/main.rs lines 12-17). -/
inductive ErrorCode where
  | BaseConversionErr
  | TargetBaseErr
  | InputBaseErr
deriving DecidableEq

/-- Error kinds of Rust `core`'s integer parsing (`ParseIntError`), as produced
by `u128::from_str_radix` / `u32::from_str_radix` on unsigned types: empty
input, an invalid digit, or positive overflow. -/
inductive ParseIntError where
  | empty
  | invalidDigit
  | posOverflow
deriving DecidableEq

/-- Rust `char::to_digit(radix)`: `0`-`9` map to 0-9, letters (either case) map
to 10-35, and the result must be below the radix. -/
def to_digit (c : Char) (radix : Nat) : Option Nat :=
  let v : Option Nat :=
    if '0' ≤ c ∧ c ≤ '9' then some (c.toNat - 48)
    else if 'a' ≤ c ∧ c ≤ 'z' then some (c.toNat - 97 + 10)
    else if 'A' ≤ c ∧ c ≤ 'Z' then some (c.toNat - 65 + 10)
    else none
  match v with
  | some d => if d < radix then some d else none
  | none => none

/-- The accumulation loop of Rust's `from_str_radix` on an unsigned integer
type with maximal value `maxVal`: each digit is validated with `to_digit` and
folded in with checked multiply-and-add (overflow yields `posOverflow`). -/
def radix_fold (maxVal radix : Nat) : Nat → List Char → Except ParseIntError Nat
  | acc, [] => Except.ok acc
  | acc, ch :: cs =>
    match to_digit ch radix with
    | none => Except.error ParseIntError.invalidDigit
    | some d =>
      if maxVal < acc * radix + d then Except.error ParseIntError.posOverflow
      else radix_fold maxVal radix (acc * radix + d) cs

/-- Rust `from_str_radix` on an unsigned type with maximal value `maxVal`.
`none` models the panic of its `radix` assertion (the radix must lie in
`[2, 36]`).  An empty string fails with `empty`; a single leading `'+'` is
accepted; a lone `"+"` fails with `invalidDigit` (as in Rust, where after
removing the sign no digits remain). -/
def from_str_radix (maxVal : Nat) (s : String) (radix : Nat) :
    Option (Except ParseIntError Nat) :=
  if radix < 2 ∨ 36 < radix then none
  else some (
    match s.data with
    | [] => Except.error ParseIntError.empty
    | ch :: cs =>
      let ds := if ch = '+' then cs else ch :: cs
      match ds with
      | [] => Except.error ParseIntError.invalidDigit
      | _ :: _ => radix_fold maxVal radix 0 ds)

/-- Largest value of Rust `u128`. -/
def U128_MAX : Nat := 2 ^ 128 - 1

/-- Largest value of Rust `u32`. -/
def U32_MAX : Nat := 2 ^ 32 - 1

/-- `num.replace(sep_char, "")` from `convert_to_base_10`: remove every
occurrence of the separator character. -/
def strip_sep (sep : Char) (s : String) : String :=
  String.mk (s.data.filter (fun ch => ch ≠ sep))

/-- `convert_to_base_10` (src/main.rs lines 124-139): an absent literal yields
`InputBaseErr`; otherwise the separator characters are stripped and the string
is parsed with `u128::from_str_radix`, any parse failure yielding
`BaseConversionErr`.  The outer `none` models the panic of `from_str_radix`
when `from_base` is outside `[2, 36]` (reachable, since the code never
validates `from_base` before parsing). -/
def convert_to_base_10 (from_num : Option String) (from_base : Nat)
    (sep_char : Char) : Option (Except ErrorCode Nat) :=
  match from_num with
  | none => some (Except.error ErrorCode.InputBaseErr)
  | some num =>
    match from_str_radix U128_MAX (strip_sep sep_char num) from_base with
    | none => none
    | some (Except.ok v) => some (Except.ok v)
    | some (Except.error _) => some (Except.error ErrorCode.BaseConversionErr)

/-- Digit-to-character map of `as_string_base`: values below 10 map to decimal
characters, 10 and above to uppercase letters starting at `'A'`. -/
def digit_char (digit : Nat) : Char :=
  if 10 ≤ digit then Char.ofNat (65 + (digit - 10)) else Char.ofNat (48 + digit)

/-- The `while tmp > 0` digit-extraction loop of `as_string_base`
(src/main.rs lines 152-172), with an explicit fuel parameter bounding the
number of iterations (the caller passes `num + 1`, which always suffices: the
loop runs once per digit, and a positive number has at most as many digits as
its own value).  Each round extracts the digit at position `count` via
division by `base ^ count`, checks it fits in a `u8` (the `try_into` in the
source), prepends its character, and clears it from `tmp`. -/
def as_string_base_loop (base : Nat) : Nat → Nat → Nat → String → Except String String
  | 0, tmp, _, str_num => if 0 < tmp then Except.error "fuel exhausted" else Except.ok str_num
  | fuel + 1, tmp, count, str_num =>
    if 0 < tmp then
      let radix_mask := base ^ count
      let digit := tmp / radix_mask % base
      if 255 < digit then
        Except.error ("Error while trying to convert to radix " ++ Nat.repr base)
      else
        as_string_base_loop base fuel (tmp - digit * radix_mask) (count + 1)
          ((digit_char digit).toString ++ str_num)
    else Except.ok str_num

/-- `as_string_base` (src/main.rs lines 141-176): rejects bases outside
`[2, 33]`, otherwise renders `num` most-significant digit first (the empty
string for 0). -/
def as_string_base (num : Nat) (base : Nat) : Except String String :=
  if base < 2 ∨ 33 < base then
    Except.error "Invalid Base.  Base must be between 2 and 32 inclusive"
  else as_string_base_loop base (num + 1) num 0 ""

/-- Digit-value fold used to state what a successful parse returns: fold the
digit values of the characters most-significant first, starting from `acc`. -/
def digits_val_from (b acc : Nat) (l : List Char) : Nat :=
  l.foldl (fun a ch => a * b + (to_digit ch b).getD 0) acc

/-- Digit value of a character list, most-significant first. -/
def digits_val (b : Nat) (l : List Char) : Nat := digits_val_from b 0 l

/-- Whether every character of the list is a valid digit for base `b`. -/
def valid_digits (b : Nat) (l : List Char) : Bool :=
  l.all (fun ch => (to_digit ch b).isSome)

/-- Drop one optional leading `'+'`, as Rust's unsigned `from_str_radix`
does before reading digits. -/
def drop_plus : List Char → List Char
  | [] => []
  | ch :: cs => if ch = '+' then cs else ch :: cs

/-- The parsed command line (`struct Opt`, src/main.rs lines 179-224).
`u8`/`u32` fields are embedded as `Nat` (their numeric values). -/
structure Opt where
  pad : Nat
  sep_length : Nat
  sep_char : Char
  no_sep : Bool
  from_base : Nat
  silent : Bool
  bare : Bool
  verbosity : Nat
  from_base_char : String
  from_num : Option String
  to_bases : List String

/-- `get_from_base` (src/main.rs lines 99-108): the symbolic base aliases. -/
def get_from_base (from_base : String) : Option Nat :=
  match from_base with
  | "b" => some 2
  | "o" => some 8
  | "d" => some 10
  | "h" => some 16
  | "x" => some 16
  | _ => none

/-- `get_bases` (src/main.rs lines 110-122).  Rust mutates the `to_bases`
vector through a `&mut`; here the (possibly extended) list is returned
alongside the `(from_base, from_num)` pair. -/
def get_bases (opt : Opt) (to_bases : List String) :
    (Nat × Option String) × List String :=
  match get_from_base opt.from_base_char with
  | some v => ((v, opt.from_num), to_bases)
  | none =>
    let to_bases2 :=
      match opt.from_num with
      | some a_base => a_base :: to_bases
      | none => to_bases
    ((opt.from_base, some opt.from_base_char), to_bases2)

/-- Value of a `u32` after Rust's `as i32` cast (two's-complement
reinterpretation). -/
def i32_of_u32 (n : Nat) : Int :=
  if n % 2 ^ 32 < 2 ^ 31 then (n % 2 ^ 32 : Int) else (n % 2 ^ 32 : Int) - 2 ^ 32

/-- Wrap an integer into the `i32` range (release-mode two's-complement
wrapping of an arithmetic result). -/
def i32_wrap (n : Int) : Int := (n + 2 ^ 31) % 2 ^ 32 - 2 ^ 31

/-- The separator-insertion `while insert_idx > 0` loop of `main`
(src/main.rs lines 80-88), on the character list of the string being built.
`insert_idx` is the Rust `i32`; each round splits at `insert_idx`, inserts the
separator character, and decreases `insert_idx` by the separator length.
Rust slices the string by byte index, which panics (`none` here) when the
index exceeds the length — reachable when the `u32` separator length casts to
a negative `i32`; the strings main groups are ASCII renderings, so byte and
character indices agree.  `fuel` bounds the iterations; the caller passes
`length + 1`, which is never exhausted: a positive `insert_idx` step count is
at most the initial index, and a non-positive step makes the first iteration
panic. -/
def insert_seps_loop (sep_length : Int) (sep_char : Char) :
    Nat → Int → List Char → Option (List Char)
  | 0, _, l => some l
  | fuel + 1, insert_idx, l =>
    if 0 < insert_idx then
      if l.length < insert_idx.toNat then none
      else
        insert_seps_loop sep_length sep_char fuel (insert_idx - sep_length)
          (l.take insert_idx.toNat ++ sep_char :: l.drop insert_idx.toNat)
    else some l

/-- The grouping step of `main` (src/main.rs lines 77-88): starting from
`out_str.len() as i32 - sep_length as i32` (computed in `i32`), insert the
separator every `sep_length` characters counted from the right.  `none`
models a panic. -/
def insert_seps (sep_length : Nat) (sep_char : Char) (s : String) :
    Option String :=
  (insert_seps_loop (i32_of_u32 sep_length) sep_char (s.data.length + 1)
      (i32_wrap ((s.data.length : Int) - i32_of_u32 sep_length)) s.data).map
    String.mk

/-- Rust's `{:02}` formatting of the target base: minimum width 2, zero
filled. -/
def pad2 (n : Nat) : String := if n < 10 then "0" ++ Nat.repr n else Nat.repr n

/-- One output line of `main` for a successfully rendered base (src/main.rs
lines 76-93): group unless `--no-sep` or a zero separator length, prefix with
`"Base NN: "` unless `--bare`.  `none` models a panic in the grouping loop. -/
def line_of (opt : Opt) (custom_base : Nat) (out_str : String) : Option String :=
  match (if opt.no_sep = false ∧ 0 < opt.sep_length then
      insert_seps opt.sep_length opt.sep_char out_str
    else some out_str) with
  | none => none
  | some grouped =>
    some ((if opt.bare = false then "Base " ++ pad2 custom_base ++ ": " else "")
      ++ grouped)

/-- The `for target_base in to_bases` loop of `main` (src/main.rs lines
60-95): parse each requested base in base 10 (failure prints a message and
exits with `TargetBaseErr`), render (failure prints the render error and
exits with `InputBaseErr`), and otherwise emit the formatted line unless
`--silent`.  Returns the printed lines and the error exit, if any; `none`
models a panic.  The `u32::from_str_radix` radix here is the literal 10, so
its panic branch is unreachable and mapped to an arbitrary defined value. -/
def print_loop (opt : Opt) (num : Nat) : List String → Option (List String × Option ErrorCode)
  | [] => some ([], none)
  | target_base :: rest =>
    match from_str_radix U32_MAX target_base 10 with
    | none => some ([], some ErrorCode.TargetBaseErr)
    | some (Except.error _) =>
      some (["Error with target base " ++ target_base
        ++ "\nPlease provide target base is base 10."],
        some ErrorCode.TargetBaseErr)
    | some (Except.ok custom_base) =>
      match as_string_base num custom_base with
      | Except.error e =>
        some (["Error with custom base:\n\t" ++ e], some ErrorCode.InputBaseErr)
      | Except.ok out_str =>
        if opt.silent = false then
          match line_of opt custom_base out_str with
          | none => none
          | some line =>
            match print_loop opt num rest with
            | none => none
            | some r => some (line :: r.1, r.2)
        else
          match print_loop opt num rest with
          | none => none
          | some r => some (r.1, r.2)

/-- Debug rendering of a string, as in Rust's `{:?}` (escape sequences inside
the string are not modelled; none occur in the inputs considered). -/
def fmt_str (s : String) : String := "\"" ++ s ++ "\""

/-- Debug rendering of an `Option<String>`. -/
def fmt_opt_string : Option String → String
  | none => "None"
  | some s => "Some(" ++ fmt_str s ++ ")"

/-- Debug rendering of a `Vec<String>`. -/
def fmt_list_string (l : List String) : String :=
  "[" ++ String.intercalate ", " (l.map fmt_str) ++ "]"

/-- Debug rendering of a `bool`. -/
def fmt_bool (b : Bool) : String := if b then "true" else "false"

/-- The derived `Debug` output of `Opt`, printed by `main` when the verbosity
is positive (src/main.rs lines 33-35): every field, including `pad`, in
declaration order. -/
def debug_fmt (opt : Opt) : String :=
  "Opt \x7b pad: " ++ Nat.repr opt.pad
    ++ ", sep_length: " ++ Nat.repr opt.sep_length
    ++ ", sep_char: '" ++ opt.sep_char.toString
    ++ "', no_sep: " ++ fmt_bool opt.no_sep
    ++ ", from_base: " ++ Nat.repr opt.from_base
    ++ ", silent: " ++ fmt_bool opt.silent
    ++ ", bare: " ++ fmt_bool opt.bare
    ++ ", verbosity: " ++ Nat.repr opt.verbosity
    ++ ", from_base_char: " ++ fmt_str opt.from_base_char
    ++ ", from_num: " ++ fmt_opt_string opt.from_num
    ++ ", to_bases: " ++ fmt_list_string opt.to_bases
    ++ " \x7d"

/-- `main` (src/main.rs lines 29-97) as a function of the parsed command
line: returns the printed lines and the error exit code, if any (`none`
models a panic).  The verbose debug dump is printed first; then the
positional arguments are resolved, the default output bases are filled in,
the input is parsed, and each requested base is processed in order. -/
def main_run (opt : Opt) : Option (List String × Option ErrorCode) :=
  let dbg := if 0 < opt.verbosity then [debug_fmt opt] else []
  let bases := get_bases opt opt.to_bases
  let from_base := bases.1.1
  let from_num := bases.1.2
  let to_bases := if bases.2.isEmpty then ["2", "8", "10", "16"] else bases.2
  match convert_to_base_10 from_num from_base opt.sep_char with
  | none => none
  | some (Except.error e) =>
    let msg :=
      match from_num with
      | none => "no number to convert was provided"
      | some num =>
        "Could not convert " ++ strip_sep opt.sep_char num
          ++ " from base " ++ Nat.repr from_base
    some (dbg ++ [msg], some e)
  | some (Except.ok num) =>
    match print_loop opt num to_bases with
    | none => none
    | some r => some (dbg ++ r.1, r.2)

/-- A command line whose requested output base `"1"` parses in base 10 but is
outside the render range: `numconverter 5 1`. -/
def opt_base1 : Opt :=
  { pad := 0, sep_length := 4, sep_char := '_', no_sep := false,
    from_base := 10, silent := false, bare := false, verbosity := 0,
    from_base_char := "5", from_num := none, to_bases := ["1"] }

/-- A verbose command line (`numconverter -v -b ... 101 10` with pad 0). -/
def opt_verbose_pad0 : Opt :=
  { pad := 0, sep_length := 4, sep_char := '_', no_sep := false,
    from_base := 10, silent := false, bare := false, verbosity := 1,
    from_base_char := "b", from_num := some "101", to_bases := ["10"] }

/-- The same verbose command line with pad 1. -/
def opt_verbose_pad1 : Opt :=
  { pad := 1, sep_length := 4, sep_char := '_', no_sep := false,
    from_base := 10, silent := false, bare := false, verbosity := 1,
    from_base_char := "b", from_num := some "101", to_bases := ["10"] }

/-- The shift-correction command line of the spec: `from_base_char = "80"`,
`from_num = Some("187")`, `from_base = 10`. -/
def opt_shift : Opt :=
  { pad := 0, sep_length := 4, sep_char := '_', no_sep := false,
    from_base := 10, silent := false, bare := false, verbosity := 0,
    from_base_char := "80", from_num := some "187", to_bases := [] }

theorem mk_append_mk (a b : List Char) :
    String.mk a ++ String.mk b = String.mk (a ++ b) := rfl

theorem char_toString_mk (c : Char) : c.toString = String.mk [c] := rfl

/-- The digit-extraction loop, run on `q * base ^ count` with fuel at least
`q`, succeeds and prepends the most-significant-first digit string of `q`. -/
theorem asb_loop_spec (base : Nat) (hb : 2 ≤ base) (hb33 : base ≤ 33) :
    ∀ (fuel q count : Nat) (acc : String), q ≤ fuel →
      as_string_base_loop base fuel (q * base ^ count) count acc =
        Except.ok (String.mk ((Nat.digits base q).reverse.map digit_char) ++ acc) := by
  intro fuel
  induction fuel with
  | zero =>
    intro q count acc hq
    obtain ⟨accl⟩ := acc
    interval_cases q
    simp [as_string_base_loop, mk_append_mk]
  | succ fuel ih =>
    intro q count acc hq
    obtain ⟨accl⟩ := acc
    rcases Nat.eq_zero_or_pos q with hq0 | hqpos
    · subst hq0
      simp [as_string_base_loop, mk_append_mk]
    · have hmask : 0 < base ^ count := pow_pos (by omega) count
      have hpos : 0 < q * base ^ count := Nat.mul_pos hqpos hmask
      have hdig : q * base ^ count / base ^ count % base = q % base := by
        rw [Nat.mul_div_cancel _ hmask]
      have hdiglt : q % base < base := Nat.mod_lt _ (by omega)
      have htmp : q * base ^ count - q % base * base ^ count =
          (q / base) * base ^ (count + 1) := by
        have hqd : base * (q / base) + q % base = q := Nat.div_add_mod q base
        calc q * base ^ count - q % base * base ^ count
            = (q - q % base) * base ^ count := by rw [Nat.sub_mul]
          _ = (base * (q / base)) * base ^ count := by
                have hsub : q - q % base = base * (q / base) := by omega
                rw [hsub]
          _ = (q / base) * base ^ (count + 1) := by ring
      have hqdiv : q / base ≤ fuel := by
        have := Nat.div_lt_self hqpos (show 1 < base by omega)
        omega
      have ihx := ih (q / base) (count + 1)
        ((digit_char (q % base)).toString ++ String.mk accl) hqdiv
      rw [show Nat.digits base q = q % base :: Nat.digits base (q / base) from
        Nat.digits_def' (by omega) hqpos]
      simp only [char_toString_mk, mk_append_mk, List.singleton_append] at ihx
      simp only [as_string_base_loop, if_pos hpos, hdig,
        if_neg (show ¬ 255 < q % base by omega), htmp,
        List.reverse_cons, List.map_append, List.map_cons, List.map_nil,
        char_toString_mk, mk_append_mk, List.append_assoc, List.nil_append,
        List.singleton_append, List.cons_append, ihx]

/-- `as_string_base` on an in-range base returns the most-significant-first
digit string of the value. -/
theorem asb_ok (num base : Nat) (hb : 2 ≤ base) (hb33 : base ≤ 33) :
    as_string_base num base =
      Except.ok (String.mk ((Nat.digits base num).reverse.map digit_char)) := by
  have h2 := asb_loop_spec base hb hb33 (num + 1) num 0 "" (Nat.le_succ num)
  simp only [pow_zero, Nat.mul_one] at h2
  rw [as_string_base, if_neg (by omega), h2,
    show ("" : String) = String.mk [] from rfl, mk_append_mk, List.append_nil]

/-- For a concrete digit value below 36, `to_digit` inverts `digit_char` up
to the radix check. -/
theorem to_digit_digit_char_eq (d : Nat) (hd : d < 36) :
    ∀ b, to_digit (digit_char d) b = if d < b then some d else none := by
  interval_cases d <;> exact fun b => rfl

theorem to_digit_digit_char (d b : Nat) (hd : d < b) (hb : b ≤ 36) :
    to_digit (digit_char d) b = some d := by
  rw [to_digit_digit_char_eq d (by omega), if_pos hd]

theorem digit_char_ne_underscore (d : Nat) (hd : d < 36) : digit_char d ≠ '_' := by
  interval_cases d <;> decide

theorem digit_char_ne_plus (d : Nat) (hd : d < 36) : digit_char d ≠ '+' := by
  interval_cases d <;> decide

/-- The digit-value fold never decreases below its accumulator. -/
theorem digits_val_from_le (b : Nat) (hb : 1 ≤ b) :
    ∀ (l : List Char) (a : Nat), a ≤ digits_val_from b a l := by
  intro l
  induction l with
  | nil => intro a; simp [digits_val_from]
  | cons c cs ih =>
    intro a
    have h1 : a ≤ a * b + (to_digit c b).getD 0 :=
      le_trans (by simpa using Nat.mul_le_mul_left a hb) (Nat.le_add_right _ _)
    exact le_trans h1 (ih _)

/-- Full characterization of the `from_str_radix` accumulation loop: it
succeeds exactly on all-valid digit strings whose folded value fits. -/
theorem radix_fold_ok_iff (maxVal b : Nat) (hb : 2 ≤ b) :
    ∀ (l : List Char) (acc : Nat), acc ≤ maxVal → ∀ v,
      (radix_fold maxVal b acc l = Except.ok v ↔
        (valid_digits b l = true ∧ digits_val_from b acc l = v ∧ v ≤ maxVal)) := by
  intro l
  induction l with
  | nil =>
    intro acc hacc v
    simp only [radix_fold, valid_digits, List.all_nil, digits_val_from,
      List.foldl_nil, Except.ok.injEq, true_and]
    constructor
    · rintro rfl; exact ⟨rfl, hacc⟩
    · rintro ⟨rfl, _⟩; rfl
  | cons c cs ih =>
    intro acc hacc v
    have hval : digits_val_from b acc (c :: cs) =
        digits_val_from b (acc * b + (to_digit c b).getD 0) cs := by
      simp [digits_val_from]
    cases hc : to_digit c b with
    | none =>
      simp [radix_fold, hc, valid_digits]
    | some d =>
      have hvd : valid_digits b (c :: cs) = valid_digits b cs := by
        simp [valid_digits, hc]
      rw [hval, hvd, hc]
      simp only [Option.getD_some]
      by_cases hov : maxVal < acc * b + d
      · simp only [radix_fold, hc, if_pos hov]
        constructor
        · intro h; exact absurd h (by simp)
        · rintro ⟨hall, hfold, hle⟩
          have := digits_val_from_le b (by omega) cs (acc * b + d)
          omega
      · simp only [radix_fold, hc, if_neg hov]
        exact ih (acc * b + d) (by omega) v

/-- Folding digit values most-significant first over the reverse of a
little-endian digit list computes `Nat.ofDigits`, shifted by the
accumulator. -/
theorem foldl_reverse_ofDigits (b : Nat) :
    ∀ (L : List Nat) (a : Nat),
      L.reverse.foldl (fun x d => x * b + d) a =
        a * b ^ L.length + Nat.ofDigits b L := by
  intro L
  induction L with
  | nil => intro a; simp
  | cons d t ih =>
    intro a
    simp only [List.reverse_cons, List.foldl_append, List.foldl_cons,
      List.foldl_nil, ih, List.length_cons]
    rw [Nat.ofDigits_cons]
    ring

/-- On characters produced by `digit_char` from in-range digits, the
digit-value fold recovers the numeric fold. -/
theorem digits_val_from_map (b : Nat) (hb36 : b ≤ 36) :
    ∀ (D : List Nat) (a : Nat), (∀ d ∈ D, d < b) →
      digits_val_from b a (D.map digit_char) =
        D.foldl (fun x d => x * b + d) a := by
  intro D
  induction D with
  | nil => intro a _; rfl
  | cons d t ih =>
    intro a hD
    have hd : d < b := hD d (by simp)
    have step : digits_val_from b a ((d :: t).map digit_char) =
        digits_val_from b (a * b + (to_digit (digit_char d) b).getD 0)
          (t.map digit_char) := rfl
    rw [step, to_digit_digit_char d b hd hb36, Option.getD_some,
      ih (a * b + d) (fun x hx => hD x (by simp [hx]))]
    rfl

/-- Characters produced by `digit_char` from in-range digits are all valid. -/
theorem valid_digits_map (b : Nat) (hb36 : b ≤ 36) (D : List Nat)
    (hD : ∀ d ∈ D, d < b) : valid_digits b (D.map digit_char) = true := by
  simp only [valid_digits, List.all_eq_true]
  intro c hc
  obtain ⟨d, hd, rfl⟩ := List.mem_map.mp hc
  rw [to_digit_digit_char d b (hD d hd) hb36]
  rfl

/-- Parsing the rendered digit string of a positive value (with the default
separator) returns the value. -/
theorem convert_render (v b : Nat) (hv : 1 ≤ v) (hv2 : v < 2 ^ 128)
    (hb : 2 ≤ b) (hb33 : b ≤ 33) :
    convert_to_base_10
        (some (String.mk ((Nat.digits b v).reverse.map digit_char))) b '_' =
      some (Except.ok v) := by
  have hD : ∀ d ∈ (Nat.digits b v).reverse, d < b := fun d hd =>
    Nat.digits_lt_base (by omega) (List.mem_reverse.mp hd)
  have hne : (Nat.digits b v).reverse ≠ [] := by
    simp only [ne_eq, List.reverse_eq_nil_iff, Nat.digits_ne_nil_iff_ne_zero]
    omega
  have hstrip : strip_sep '_' (String.mk ((Nat.digits b v).reverse.map digit_char)) =
      String.mk ((Nat.digits b v).reverse.map digit_char) := by
    unfold strip_sep
    congr 1
    apply List.filter_eq_self.mpr
    intro c hc
    obtain ⟨d, hd, rfl⟩ := List.mem_map.mp hc
    simpa using digit_char_ne_underscore d (by have := hD d hd; omega)
  obtain ⟨d0, D2, hD0⟩ : ∃ d0 D2, (Nat.digits b v).reverse = d0 :: D2 := by
    cases h : (Nat.digits b v).reverse with
    | nil => exact absurd h hne
    | cons a t => exact ⟨a, t, rfl⟩
  have hfold : radix_fold U128_MAX b 0 ((Nat.digits b v).reverse.map digit_char) =
      Except.ok v := by
    apply (radix_fold_ok_iff U128_MAX b hb _ 0 (Nat.zero_le _) v).mpr
    refine ⟨valid_digits_map b (by omega) _ hD, ?_, ?_⟩
    · rw [digits_val_from_map b (by omega) _ 0 hD, foldl_reverse_ofDigits,
        Nat.ofDigits_digits, Nat.zero_mul, Nat.zero_add]
    · have h128 : (0 : Nat) < 2 ^ 128 := Nat.pos_pow_of_pos _ (by omega)
      show v ≤ U128_MAX
      rw [U128_MAX]
      omega
  simp only [convert_to_base_10]
  rw [hstrip]
  unfold from_str_radix
  rw [if_neg (by omega), hD0]
  simp only [List.map_cons]
  have hd0 : d0 < b := hD d0 (by rw [hD0]; simp)
  rw [if_neg (digit_char_ne_plus d0 (by omega))]
  rw [hD0] at hfold
  simp only [List.map_cons] at hfold
  simp only [hfold]

/-- `convert_to_base_10` on a present literal, written through `drop_plus`:
the stripped literal is parsed after dropping one optional leading `'+'`, and
every parse failure (empty remainder included) becomes `BaseConversionErr`. -/
theorem convert_some_eq (s : String) (b : Nat) (c : Char)
    (hb : 2 ≤ b) (hb36 : b ≤ 36) :
    convert_to_base_10 (some s) b c = some (
      match drop_plus (strip_sep c s).data with
      | [] => Except.error ErrorCode.BaseConversionErr
      | _ :: _ =>
        match radix_fold U128_MAX b 0 (drop_plus (strip_sep c s).data) with
        | Except.ok v => Except.ok v
        | Except.error _ => Except.error ErrorCode.BaseConversionErr) := by
  simp only [convert_to_base_10]
  unfold from_str_radix
  rw [if_neg (by omega)]
  cases hsd : (strip_sep c s).data with
  | nil => simp [drop_plus]
  | cons ch cs =>
    simp only [drop_plus]
    by_cases hplus : ch = '+'
    · subst hplus
      simp only [if_pos rfl]
      cases cs with
      | nil => simp
      | cons c2 cs2 =>
        cases hr : radix_fold U128_MAX b 0 (c2 :: cs2) <;> simp [hr]
    · simp only [if_neg hplus]
      cases hr : radix_fold U128_MAX b 0 (ch :: cs) <;> simp [hr]

/-- Success characterization of `convert_to_base_10` on a present literal:
`Ok v` exactly when, after separator stripping and one optional leading
`'+'`, a nonempty all-valid digit string of value `v` below `2 ^ 128`
remains. -/
theorem convert_some_ok_iff (s : String) (b : Nat) (c : Char)
    (hb : 2 ≤ b) (hb36 : b ≤ 36) (v : Nat) :
    convert_to_base_10 (some s) b c = some (Except.ok v) ↔
      (drop_plus (strip_sep c s).data ≠ [] ∧
       valid_digits b (drop_plus (strip_sep c s).data) = true ∧
       digits_val b (drop_plus (strip_sep c s).data) = v ∧ v < 2 ^ 128) := by
  rw [convert_some_eq s b c hb hb36]
  cases hdp : drop_plus (strip_sep c s).data with
  | nil => simp
  | cons ch cs =>
    cases hr : radix_fold U128_MAX b 0 (ch :: cs) with
    | ok w =>
      obtain ⟨hvd, hval, hle⟩ :=
        (radix_fold_ok_iff U128_MAX b hb (ch :: cs) 0 (Nat.zero_le _) w).mp hr
      have hmax : (0 : Nat) < 2 ^ 128 := Nat.pos_pow_of_pos _ (by omega)
      have hU : U128_MAX = 2 ^ 128 - 1 := rfl
      simp only [hr, Option.some.injEq, Except.ok.injEq, ne_eq, reduceCtorEq,
        not_false_iff, true_and]
      have heq : digits_val b (ch :: cs) = w := hval
      constructor
      · rintro rfl
        exact ⟨hvd, heq, by omega⟩
      · rintro ⟨_, hval2, _⟩
        omega
    | error e =>
      simp only [hr, Option.some.injEq, reduceCtorEq, false_iff]
      rintro ⟨-, hvd, hval, hlt⟩
      have hU : U128_MAX = 2 ^ 128 - 1 := rfl
      have hcontra : radix_fold U128_MAX b 0 (ch :: cs) = Except.ok v :=
        (radix_fold_ok_iff U128_MAX b hb (ch :: cs) 0 (Nat.zero_le _) v).mpr
          ⟨hvd, hval, by omega⟩
      rw [hr] at hcontra
      exact absurd hcontra (by simp)

/-- Error characterization of `convert_to_base_10` on a present literal. -/
theorem convert_some_err_iff (s : String) (b : Nat) (c : Char)
    (hb : 2 ≤ b) (hb36 : b ≤ 36) :
    convert_to_base_10 (some s) b c =
        some (Except.error ErrorCode.BaseConversionErr) ↔
      ¬ (drop_plus (strip_sep c s).data ≠ [] ∧
         valid_digits b (drop_plus (strip_sep c s).data) = true ∧
         digits_val b (drop_plus (strip_sep c s).data) < 2 ^ 128) := by
  rw [convert_some_eq s b c hb hb36]
  cases hdp : drop_plus (strip_sep c s).data with
  | nil => simp
  | cons ch cs =>
    cases hr : radix_fold U128_MAX b 0 (ch :: cs) with
    | ok w =>
      obtain ⟨hvd, hval, hle⟩ :=
        (radix_fold_ok_iff U128_MAX b hb (ch :: cs) 0 (Nat.zero_le _) w).mp hr
      have hmax : (0 : Nat) < 2 ^ 128 := Nat.pos_pow_of_pos _ (by omega)
      have hU : U128_MAX = 2 ^ 128 - 1 := rfl
      have heq : digits_val b (ch :: cs) = w := hval
      simp only [hr, Option.some.injEq, reduceCtorEq, false_iff, not_not, ne_eq,
        not_false_iff, true_and]
      exact ⟨hvd, by omega⟩
    | error e =>
      simp only [hr, Option.some.injEq, Except.error.injEq, true_iff]
      rintro ⟨hne2, hvd, hlt⟩
      have hU : U128_MAX = 2 ^ 128 - 1 := rfl
      have hval0 : digits_val_from b 0 (ch :: cs) = digits_val b (ch :: cs) := rfl
      have hcontra : radix_fold U128_MAX b 0 (ch :: cs) =
          Except.ok (digits_val b (ch :: cs)) :=
        (radix_fold_ok_iff U128_MAX b hb (ch :: cs) 0 (Nat.zero_le _) _).mpr
          ⟨hvd, hval0, by omega⟩
      rw [hr] at hcontra
      exact absurd hcontra (by simp)

/-- Removing the separator from whatever the insertion loop produced
recovers exactly the non-separator characters of the input. -/
theorem isl_filter (L : Int) (c : Char) :
    ∀ (fuel : Nat) (idx : Int) (l r : List Char),
      insert_seps_loop L c fuel idx l = some r →
      r.filter (fun x => x ≠ c) = l.filter (fun x => x ≠ c) := by
  intro fuel
  induction fuel with
  | zero =>
    intro idx l r h
    simp only [insert_seps_loop, Option.some.injEq] at h
    rw [← h]
  | succ fuel ih =>
    intro idx l r h
    simp only [insert_seps_loop] at h
    by_cases hidx : 0 < idx
    · rw [if_pos hidx] at h
      by_cases hlen : l.length < idx.toNat
      · rw [if_pos hlen] at h
        exact absurd h (by simp)
      · rw [if_neg hlen] at h
        rw [ih _ _ _ h, List.filter_append, List.filter_cons]
        have hcc : ¬ ((fun x => decide ¬ x = c) c = true) := by simp
        rw [if_neg hcc, ← List.filter_append, List.take_append_drop]
    · rw [if_neg hidx] at h
      simp only [Option.some.injEq] at h
      rw [← h]

/-- The insertion loop preserves the first character. -/
theorem isl_head (L : Int) (c : Char) :
    ∀ (fuel : Nat) (idx : Int) (l r : List Char),
      insert_seps_loop L c fuel idx l = some r → r.head? = l.head? := by
  intro fuel
  induction fuel with
  | zero =>
    intro idx l r h
    simp only [insert_seps_loop, Option.some.injEq] at h
    rw [← h]
  | succ fuel ih =>
    intro idx l r h
    simp only [insert_seps_loop] at h
    by_cases hidx : 0 < idx
    · rw [if_pos hidx] at h
      by_cases hlen : l.length < idx.toNat
      · rw [if_pos hlen] at h
        exact absurd h (by simp)
      · rw [if_neg hlen] at h
        have hn1 : 1 ≤ idx.toNat := by omega
        rw [ih _ _ _ h]
        cases l with
        | nil => simp at hlen; omega
        | cons x xs =>
          obtain ⟨m, hm⟩ : ∃ m, idx.toNat = m + 1 := ⟨idx.toNat - 1, by omega⟩
          rw [hm, List.take_succ_cons, List.cons_append]
          rfl
    · rw [if_neg hidx] at h
      simp only [Option.some.injEq] at h
      rw [← h]

/-- The insertion loop preserves the last character, as long as the insertion
index stays below the length (true at every reachable state when the
separator length is positive). -/
theorem isl_getLast (L : Int) (c : Char) (hL : 1 ≤ L) :
    ∀ (fuel : Nat) (idx : Int) (l r : List Char), idx < (l.length : Int) →
      insert_seps_loop L c fuel idx l = some r → r.getLast? = l.getLast? := by
  intro fuel
  induction fuel with
  | zero =>
    intro idx l r _ h
    simp only [insert_seps_loop, Option.some.injEq] at h
    rw [← h]
  | succ fuel ih =>
    intro idx l r hlt h
    simp only [insert_seps_loop] at h
    by_cases hidx : 0 < idx
    · rw [if_pos hidx] at h
      have hnlt : ¬ (l.length < idx.toNat) := by omega
      rw [if_neg hnlt] at h
      have hdrop : l.drop idx.toNat ≠ [] := by
        intro hd
        have := List.drop_eq_nil_iff.mp hd
        omega
      have hlen2 : idx - L < ((l.take idx.toNat ++ c :: l.drop idx.toNat).length : Int) := by
        simp only [List.length_append, List.length_take, List.length_cons,
          List.length_drop]
        omega
      rw [ih _ _ _ hlen2 h, List.getLast?_append_cons,
        show (c :: l.drop idx.toNat) = [c] ++ l.drop idx.toNat from rfl,
        List.getLast?_append_of_ne_nil [c] hdrop,
        ← List.getLast?_append_of_ne_nil (l.take idx.toNat) hdrop,
        List.take_append_drop]
    · rw [if_neg hidx] at h
      simp only [Option.some.injEq] at h
      rw [← h]

/-- With a positive insertion index below the length, the insertion loop
never panics. -/
theorem isl_some (L : Int) (c : Char) (hL : 1 ≤ L) :
    ∀ (fuel : Nat) (idx : Int) (l : List Char), idx < (l.length : Int) →
      ∃ r, insert_seps_loop L c fuel idx l = some r := by
  intro fuel
  induction fuel with
  | zero => intro idx l _; exact ⟨l, rfl⟩
  | succ fuel ih =>
    intro idx l hlt
    simp only [insert_seps_loop]
    by_cases hidx : 0 < idx
    · rw [if_pos hidx]
      have hnlt : ¬ (l.length < idx.toNat) := by omega
      rw [if_neg hnlt]
      apply ih
      simp only [List.length_append, List.length_take, List.length_cons,
        List.length_drop]
      omega
    · rw [if_neg hidx]
      exact ⟨l, rfl⟩

/-- For separator lengths and string lengths below `2 ^ 31`, the
`u32`-to-`i32` cast and the initial index arithmetic are the identity. -/
theorem insert_seps_eq_loop (L : Nat) (c : Char) (s : String)
    (hL31 : L < 2 ^ 31) (hlen : s.data.length < 2 ^ 31) :
    insert_seps L c s =
      (insert_seps_loop (L : Int) c (s.data.length + 1)
        ((s.data.length : Int) - L) s.data).map String.mk := by
  unfold insert_seps
  have h1 : i32_of_u32 L = (L : Int) := by
    unfold i32_of_u32
    rw [if_pos (show L % 2 ^ 32 < 2 ^ 31 by omega)]
    omega
  rw [h1]
  have h2 : i32_wrap ((s.data.length : Int) - L) = (s.data.length : Int) - L := by
    unfold i32_wrap
    have hrange : (0 : Int) ≤ (s.data.length : Int) - L + 2 ^ 31 ∧
        (s.data.length : Int) - L + 2 ^ 31 < 2 ^ 32 := by
      constructor <;> [skip; skip] <;> omega
    rw [Int.emod_eq_of_lt hrange.1 hrange.2]
    ring
  rw [h2]

/-- When a requested output base parses but is out of render range, the
output loop prints the render-error message and exits with `InputBaseErr`. -/
theorem print_loop_out_of_range (opt : Opt) (num : Nat) (tb : String)
    (rest : List String) (cb : Nat)
    (hparse : from_str_radix U32_MAX tb 10 = some (Except.ok cb))
    (hcb : cb < 2 ∨ 33 < cb) :
    print_loop opt num (tb :: rest) =
      some (["Error with custom base:\n\tInvalid Base.  Base must be between 2 and 32 inclusive"],
        some ErrorCode.InputBaseErr) := by
  have hrender : as_string_base num cb =
      Except.error "Invalid Base.  Base must be between 2 and 32 inclusive" := by
    unfold as_string_base
    rw [if_pos hcb]
  simp only [print_loop, hparse, hrender]
  rfl

/-- When a requested output base does not parse in base 10, the output loop
prints the target-base message and exits with `TargetBaseErr`. -/
theorem print_loop_parse_fail (opt : Opt) (num : Nat) (tb : String)
    (rest : List String) (e : ParseIntError)
    (hparse : from_str_radix U32_MAX tb 10 = some (Except.error e)) :
    print_loop opt num (tb :: rest) =
      some (["Error with target base " ++ tb
        ++ "\nPlease provide target base is base 10."],
        some ErrorCode.TargetBaseErr) := by
  simp only [print_loop, hparse]

/-- `line_of` reads neither the pad nor the verbosity field. -/
theorem line_of_pad (opt : Opt) (p w : Nat) (cb : Nat) (s : String) :
    line_of { opt with pad := p, verbosity := w } cb s = line_of opt cb s := rfl

/-- The output loop reads neither the pad nor the verbosity field. -/
theorem print_loop_pad (opt : Opt) (p w : Nat) (num : Nat) :
    ∀ l, print_loop { opt with pad := p, verbosity := w } num l =
      print_loop opt num l := by
  intro l
  induction l with
  | nil => rfl
  | cons tb rest ih =>
    simp only [print_loop, ih, line_of_pad,
      show ({ opt with pad := p, verbosity := w } : Opt).silent = opt.silent from rfl]

/-- With verbosity 0, the whole run never reads the pad field. -/
theorem main_run_pad (opt : Opt) (p : Nat) (h : opt.verbosity = 0) :
    main_run { opt with pad := p } = main_run opt := by
  have hg0 : get_bases { opt with pad := p, verbosity := 0 } = get_bases opt := rfl
  simp only [main_run, h, hg0, print_loop_pad, lt_self_iff_false, if_false]

/-- C1 fails at value 0: rendering 0 yields the empty string, and parsing
the empty string back returns `BaseConversionErr`, not `Ok 0`. -/
theorem C1_counterexample :
    as_string_base 0 2 = Except.ok "" ∧
    convert_to_base_10 (some "") 2 '_' =
      some (Except.error ErrorCode.BaseConversionErr) ∧
    convert_to_base_10 (some "") 2 '_' ≠ some (Except.ok 0) :=
  ⟨by decide, by decide, by decide⟩

/-- C1 (amended): for every u128 value `v ≥ 1` and base `b` in `[2, 33]`,
parsing the rendered string back in base `b` with the default separator `'_'`
returns `Ok v`; at `v = 0` the render is empty and the parse fails. -/
theorem C1_roundtrip (v b : Nat) (s : String) (hv : 1 ≤ v) (hv2 : v < 2 ^ 128)
    (hb : 2 ≤ b) (hb33 : b ≤ 33)
    (hrender : as_string_base v b = Except.ok s) :
    convert_to_base_10 (some s) b '_' = some (Except.ok v) := by
  rw [asb_ok v b hb hb33] at hrender
  injection hrender with hs
  rw [← hs]
  exact convert_render v b hv hv2 hb hb33

theorem C1_witness :
    convert_to_base_10 (some "10111011") 2 '_' = some (Except.ok 187) :=
  C1_roundtrip 187 2 "10111011" (by decide) (by decide) (by decide) (by decide)
    (by decide)

/-- C2: for every base `b` in `[2, 33]`, `as_string_base 0 b` returns the
empty string — the digit-extraction loop body never runs on value 0. -/
theorem C2_zero_empty (b : Nat) (hb : 2 ≤ b) (hb33 : b ≤ 33) :
    as_string_base 0 b = Except.ok "" := by
  rw [asb_ok 0 b hb hb33]
  simp [Nat.digits_zero]

theorem C2_witness : as_string_base 0 2 = Except.ok "" :=
  C2_zero_empty 2 (by decide) (by decide)

/-- C3 fails on the empty literal: a present-but-empty literal yields
`BaseConversionErr`, not `InputBaseErr`; and a literal containing the
non-digit character `'+'` can still parse successfully. -/
theorem C3_counterexample :
    convert_to_base_10 (some "") 10 '_' =
      some (Except.error ErrorCode.BaseConversionErr) ∧
    convert_to_base_10 (some "") 10 '_' ≠
      some (Except.error ErrorCode.InputBaseErr) ∧
    convert_to_base_10 (some "+5") 10 '_' = some (Except.ok 5) :=
  ⟨by decide, by decide, by decide⟩

/-- C3 (amended): `InputBaseErr` exactly when the literal is absent; a
present literal, after separator stripping and one optional leading `'+'`,
returns `Ok v` exactly when a nonempty all-valid digit string of value
`v < 2 ^ 128` remains, and `BaseConversionErr` exactly otherwise (including
the empty literal). -/
theorem C3_error_conditions (s : String) (b : Nat) (c : Char) (v : Nat)
    (hb : 2 ≤ b) (hb36 : b ≤ 36) :
    convert_to_base_10 none b c = some (Except.error ErrorCode.InputBaseErr) ∧
    (convert_to_base_10 (some s) b c = some (Except.ok v) ↔
      (drop_plus (strip_sep c s).data ≠ [] ∧
       valid_digits b (drop_plus (strip_sep c s).data) = true ∧
       digits_val b (drop_plus (strip_sep c s).data) = v ∧ v < 2 ^ 128)) ∧
    (convert_to_base_10 (some s) b c =
        some (Except.error ErrorCode.BaseConversionErr) ↔
      ¬ (drop_plus (strip_sep c s).data ≠ [] ∧
         valid_digits b (drop_plus (strip_sep c s).data) = true ∧
         digits_val b (drop_plus (strip_sep c s).data) < 2 ^ 128)) :=
  ⟨rfl, convert_some_ok_iff s b c hb hb36 v, convert_some_err_iff s b c hb hb36⟩

theorem C3_witness :
    convert_to_base_10 (some "BB") 16 '_' = some (Except.ok 187) :=
  ((C3_error_conditions "BB" 16 '_' 187 (by decide) (by decide)).2.1).mpr
    (by decide)

/-- C4 fails: the run `numconverter 5 1` has the output base `"1"`, which
parses in base 10 but is out of render range, and it exits with
`InputBaseErr` — not `TargetBaseErr` as claimed. -/
theorem C4_counterexample :
    main_run opt_base1 =
      some (["Error with custom base:\n\tInvalid Base.  Base must be between 2 and 32 inclusive"],
        some ErrorCode.InputBaseErr) ∧
    ErrorCode.InputBaseErr ≠ ErrorCode.TargetBaseErr :=
  ⟨by decide, by decide⟩

/-- C4 (amended): an output base that parses in base 10 but lies outside
`[2, 33]` makes the invocation fail with `InputBaseErr` (the kind `main`
assigns to render failures), while `TargetBaseErr` is reported exactly when
the output-base argument is not a valid base-10 numeral. -/
theorem C4_error_kinds (opt : Opt) (num : Nat) (tb : String)
    (rest : List String) :
    (∀ cb, from_str_radix U32_MAX tb 10 = some (Except.ok cb) →
      cb < 2 ∨ 33 < cb →
      print_loop opt num (tb :: rest) =
        some (["Error with custom base:\n\tInvalid Base.  Base must be between 2 and 32 inclusive"],
          some ErrorCode.InputBaseErr)) ∧
    (∀ e, from_str_radix U32_MAX tb 10 = some (Except.error e) →
      print_loop opt num (tb :: rest) =
        some (["Error with target base " ++ tb
            ++ "\nPlease provide target base is base 10."],
          some ErrorCode.TargetBaseErr)) :=
  ⟨fun cb hp hcb => print_loop_out_of_range opt num tb rest cb hp hcb,
   fun e hp => print_loop_parse_fail opt num tb rest e hp⟩

theorem C4_witness :
    print_loop opt_base1 5 ["1"] =
      some (["Error with custom base:\n\tInvalid Base.  Base must be between 2 and 32 inclusive"],
        some ErrorCode.InputBaseErr) :=
  (C4_error_kinds opt_base1 5 "1" []).1 1 (by decide) (by decide)

/-- C5: `as_string_base` fails exactly on bases outside `[2, 33]` (with the
invalid-base message, never attempting to render) and succeeds on every base
inside, producing the digit string. -/
theorem C5_base_range (v b : Nat) (hv : v < 2 ^ 128) :
    (b < 2 ∨ 33 < b →
      as_string_base v b =
        Except.error "Invalid Base.  Base must be between 2 and 32 inclusive") ∧
    (2 ≤ b → b ≤ 33 →
      as_string_base v b =
        Except.ok (String.mk ((Nat.digits b v).reverse.map digit_char))) := by
  constructor
  · intro h
    unfold as_string_base
    rw [if_pos h]
  · intro h1 h2
    exact asb_ok v b h1 h2

theorem C5_witness :
    as_string_base 5 1 =
      Except.error "Invalid Base.  Base must be between 2 and 32 inclusive" :=
  (C5_base_range 5 1 (by decide)).1 (Or.inl (by decide))

/-- C6 fails: with a present literal and parse base 1, `convert_to_base_10`
panics (the `none` of the model — Rust's `from_str_radix` asserts its radix
is in `[2, 36]`) instead of returning a defined error result. -/
theorem C6_counterexample : convert_to_base_10 (some "5") 1 '_' = none := by
  decide

/-- C6 (amended): for every parse base outside `[2, 36]`,
`convert_to_base_10` panics when a literal is present (it never clamps, but
it crashes rather than returning a defined error), and still returns
`InputBaseErr` when the literal is absent (the base is never consulted). -/
theorem C6_out_of_range (s : String) (b : Nat) (c : Char)
    (hb : b < 2 ∨ 36 < b) :
    convert_to_base_10 (some s) b c = none ∧
    convert_to_base_10 none b c = some (Except.error ErrorCode.InputBaseErr) := by
  constructor
  · simp only [convert_to_base_10]
    unfold from_str_radix
    rw [if_pos hb]
  · rfl

theorem C6_witness : convert_to_base_10 (some "99") 37 ',' = none :=
  (C6_out_of_range "99" 37 ',' (Or.inr (by decide))).1

/-- C7: when the base character is not an alias, `get_bases` resolves to the
numeric flag value with the base character as literal, prepends a present
`from_num` to the output-base list, and leaves the list untouched when
`from_num` is absent; concretely, `"80"`/`Some "187"`/base 10 resolves to
`(10, Some "80")` with `"187"` prepended. -/
theorem C7_shift (opt : Opt) (l : List String)
    (h : get_from_base opt.from_base_char = none) :
    (get_bases opt l).1 = (opt.from_base, some opt.from_base_char) ∧
    (∀ a, opt.from_num = some a → (get_bases opt l).2 = a :: l) ∧
    (opt.from_num = none → (get_bases opt l).2 = l) ∧
    get_bases opt_shift l = ((10, some "80"), "187" :: l) := by
  refine ⟨?_, ?_, ?_, ?_⟩
  · cases hfn : opt.from_num <;> simp [get_bases, h, hfn]
  · intro a ha
    simp [get_bases, h, ha]
  · intro ha
    simp [get_bases, h, ha]
  · rfl

theorem C7_witness : get_bases opt_shift [] = ((10, some "80"), ["187"]) :=
  (C7_shift opt_shift [] (by decide)).2.2.2

/-- C8: the alias characters resolve to their bases (`b` to 2, `o` to 8,
`d` to 10, `h` and `x` to 16), keeping `from_num` as the literal and the
output-base list unmodified. -/
theorem C8_aliases (opt : Opt) (l : List String) :
    get_bases { opt with from_base_char := "b" } l = ((2, opt.from_num), l) ∧
    get_bases { opt with from_base_char := "o" } l = ((8, opt.from_num), l) ∧
    get_bases { opt with from_base_char := "d" } l = ((10, opt.from_num), l) ∧
    get_bases { opt with from_base_char := "h" } l = ((16, opt.from_num), l) ∧
    get_bases { opt with from_base_char := "x" } l = ((16, opt.from_num), l) :=
  ⟨rfl, rfl, rfl, rfl, rfl⟩

/-- C9 fails for separator lengths at and above `2 ^ 31`: the `u32` length
casts to a negative `i32`, the initial insertion index lands beyond the end
of the string, and the byte slice panics. -/
theorem C9_counterexample : insert_seps 4294967292 '_' "101110110" = none := by
  decide

/-- C9 (amended): for group widths `1 ≤ L < 2 ^ 31` on separator-free digit
strings shorter than `2 ^ 31` (always true of rendered `u128` digits),
grouping succeeds, removing the separators recovers the original characters,
no separator sits at the first or last position, and the 9-character string
`"101110110"` with width 4 gains exactly 2 separators, in groups of 1, 4, 4
from the left. -/
theorem C9_grouping (s : String) (L : Nat) (c : Char)
    (hL : 1 ≤ L) (hL31 : L < 2 ^ 31) (hlen : s.data.length < 2 ^ 31)
    (hc : c ∉ s.data) :
    (∃ t, insert_seps L c s = some t ∧
      t.data.filter (fun x => x ≠ c) = s.data ∧
      t.data.head? ≠ some c ∧
      t.data.getLast? ≠ some c) ∧
    insert_seps 4 '_' "101110110" = some "1_0111_0110" := by
  constructor
  · rw [insert_seps_eq_loop L c s hL31 hlen]
    have hidx : ((s.data.length : Int) - L) < (s.data.length : Int) := by omega
    obtain ⟨r, hr⟩ := isl_some (L : Int) c (by exact_mod_cast hL)
      (s.data.length + 1) _ s.data hidx
    refine ⟨String.mk r, by rw [hr]; rfl, ?_, ?_, ?_⟩
    · rw [show (String.mk r).data = r from rfl, isl_filter _ _ _ _ _ _ hr]
      apply List.filter_eq_self.mpr
      intro a ha
      simp only [ne_eq, decide_eq_true_eq]
      intro heq
      exact hc (heq ▸ ha)
    · rw [show (String.mk r).data = r from rfl, isl_head _ _ _ _ _ _ hr]
      cases hsd : s.data with
      | nil => simp
      | cons x xs =>
        intro hx
        rw [List.head?_cons, Option.some.injEq] at hx
        exact hc (by rw [hsd]; exact hx ▸ List.mem_cons_self x xs)
    · rw [show (String.mk r).data = r from rfl,
        isl_getLast (L : Int) c (by exact_mod_cast hL) _ _ _ _ hidx hr]
      intro hl
      have hmem : c ∈ s.data.getLast? := by rw [hl]; rfl
      obtain ⟨hne, heq⟩ := List.mem_getLast?_eq_getLast hmem
      exact hc (heq ▸ List.getLast_mem hne)
  · decide

theorem C9_witness : insert_seps 4 '_' "101110110" = some "1_0111_0110" :=
  (C9_grouping "101110110" 4 '_' (by decide) (by decide) (by decide)
    (by decide)).2

/-- C10 fails when the verbosity is positive: the debug dump prints the pad
field, so two invocations differing only in pad print different lines. -/
theorem C10_counterexample :
    main_run { opt_verbose_pad0 with pad := 1 } ≠ main_run opt_verbose_pad0 := by
  decide

/-- C10 (amended): the pad field is parsed but read only by the verbose
debug dump; with verbosity 0, invocations differing only in pad produce
identical printed lines and exit results. -/
theorem C10_pad_unused (opt : Opt) (p1 p2 : Nat) (h : opt.verbosity = 0) :
    main_run { opt with pad := p1 } = main_run { opt with pad := p2 } := by
  rw [main_run_pad opt p1 h, main_run_pad opt p2 h]

theorem C10_witness :
    main_run { opt_base1 with pad := 0 } = main_run { opt_base1 with pad := 7 } :=
  C10_pad_unused opt_base1 0 7 rfl

